import Mathlib

/-!
# URL shortener: engine and handlers

A shallow embedding of `shortener.go` and of the two handlers of `main.go`.

* Go strings are Lean strings (sequences of Unicode scalar values, that is,
  the Go strings that are valid UTF-8); the string helpers work on the
  character list `String.data`.
* The map `urls` is an association list with Go's map semantics: `mapGet`
  is `m[k]` with the comma-ok flag and `mapSet` is `m[k] = v`.
* `crypto/rand` is a byte tape with a cursor: `rand.Read` of `n` bytes
  returns the next `n` tape cells (each reduced modulo 256) and advances the
  cursor, so every theorem quantifies over all possible random draws.
* The mutex is not modelled: every operation is one atomic state
  transformer.
-/

namespace Urlshortener

/-! ## strings -/

/-- Go `unicode.IsSpace`: the Latin-1 spaces and the Unicode `White_Space`
code points. -/
def IsSpace (c : Char) : Bool :=
  let r := c.toNat
  r == 0x09 || r == 0x0A || r == 0x0B || r == 0x0C || r == 0x0D || r == 0x20 ||
  r == 0x85 || r == 0xA0 || r == 0x1680 || (0x2000 ≤ r && r ≤ 0x200A) ||
  r == 0x2028 || r == 0x2029 || r == 0x202F || r == 0x205F || r == 0x3000

/-- Go `strings.TrimSpace` on the characters of a string. -/
def TrimSpace (s : List Char) : List Char :=
  ((s.dropWhile IsSpace).reverse.dropWhile IsSpace).reverse

/-- Go `strings.Cut(s, sep)` for a one-byte separator: the text before the
first `sep`, the text after it, and whether `sep` was found. -/
def Cut (sep : Char) : List Char → List Char × List Char × Bool
  | [] => ([], [], false)
  | c :: s =>
    if c = sep then ([], s, true)
    else
      let r := Cut sep s
      (c :: r.1, r.2.1, r.2.2)

/-- Go `strings.Count(s, sep)` for a one-byte separator. -/
def Count (sep : Char) (s : List Char) : Nat :=
  (s.filter (fun c => c == sep)).length

/-- Lower-casing of one ASCII letter, as `strings.ToLower` does on an ASCII
string. -/
def lowerASCII (c : Char) : Char :=
  if 'A'.toNat ≤ c.toNat ∧ c.toNat ≤ 'Z'.toNat then Char.ofNat (c.toNat + 32) else c

/-- Go `strings.ToLower`, used here only on a scheme, which is ASCII. -/
def ToLower (s : List Char) : List Char := s.map lowerASCII

/-- The text after the last `sep` of `s` (`s[i+1:]` for
`i = strings.LastIndex(s, sep)`), or `none` when `sep` does not occur. -/
def afterLast (sep : Char) : List Char → Option (List Char)
  | [] => none
  | c :: s =>
    match afterLast sep s with
    | some t => some t
    | none => if c = sep then some s else none

/-- The text before the last `sep` of `s` (`s[:i]` for
`i = strings.LastIndex(s, sep)`), or `none` when `sep` does not occur. -/
def beforeLast (sep : Char) : List Char → Option (List Char)
  | [] => none
  | c :: s =>
    match beforeLast sep s with
    | some t => some (c :: t)
    | none => if c = sep then some [] else none

/-- The UTF-8 bytes of one character. -/
def utf8 (c : Char) : List Nat :=
  let v := c.toNat
  if v < 0x80 then [v]
  else if v < 0x800 then [0xC0 + v / 64, 0x80 + v % 64]
  else if v < 0x10000 then [0xE0 + v / 4096, 0x80 + v / 64 % 64, 0x80 + v % 64]
  else [0xF0 + v / 262144, 0x80 + v / 4096 % 64, 0x80 + v / 64 % 64, 0x80 + v % 64]

/-! ## net/url

`url.Parse` as in the Go standard library (`net/url/url.go` of Go 1.22),
restricted to what `isValidURL` observes: whether parsing fails, and the `Scheme` and
`Host` of the result. Unescaped components are byte strings. -/

/-- The fields of `url.URL` that the parser fills from the text
(`User` is validated but not kept). -/
structure URL where
  Scheme : List Char := []
  Opaque : List Char := []
  Host : List Nat := []
  Path : List Nat := []
  RawQuery : List Char := []
  Fragment : List Nat := []
  deriving DecidableEq, Repr

/-- The escaping modes of `net/url` that `Parse` uses. -/
inductive encoding where
  | encodePath
  | encodeHost
  | encodeZone
  | encodeUserPassword
  | encodeFragment
  deriving DecidableEq, Repr

def isLetter (c : Char) : Bool :=
  ('a'.toNat ≤ c.toNat && c.toNat ≤ 'z'.toNat) || ('A'.toNat ≤ c.toNat && c.toNat ≤ 'Z'.toNat)

def isDigit (c : Char) : Bool := '0'.toNat ≤ c.toNat && c.toNat ≤ '9'.toNat

def ishex (c : Char) : Bool :=
  isDigit c || ('a'.toNat ≤ c.toNat && c.toNat ≤ 'f'.toNat) ||
    ('A'.toNat ≤ c.toNat && c.toNat ≤ 'F'.toNat)

def unhex (c : Char) : Nat :=
  if isDigit c then c.toNat - '0'.toNat
  else if 'a'.toNat ≤ c.toNat && c.toNat ≤ 'f'.toNat then c.toNat - 'a'.toNat + 10
  else if 'A'.toNat ≤ c.toNat && c.toNat ≤ 'F'.toNat then c.toNat - 'A'.toNat + 10
  else 0

/-- Go `shouldEscape(c, encodeHost)` on a byte. -/
def shouldEscapeHost (c : Nat) : Bool :=
  if ('a'.toNat ≤ c && c ≤ 'z'.toNat) || ('A'.toNat ≤ c && c ≤ 'Z'.toNat) ||
      ('0'.toNat ≤ c && c ≤ '9'.toNat) then false
  else if ("!$&'()*+,;=:[]<>\"".data.map Char.toNat).contains c then false
  else if ("-_.~".data.map Char.toNat).contains c then false
  else true

/-- Go `stringContainsCTLByte`: a byte below space or DEL. -/
def stringContainsCTLByte (s : List Char) : Bool :=
  s.any (fun c => c.toNat < 0x20 || c.toNat == 0x7f)

/-- Go `unescape(s, mode)`: `none` for an `EscapeError` or an
`InvalidHostError`, else the unescaped bytes. -/
def unescape (mode : encoding) : List Char → Option (List Nat)
  | [] => some []
  | c :: s =>
    if c = '%' then
      match s with
      | a :: b :: t =>
        if !(ishex a && ishex b) then none
        else if mode = encoding.encodeHost && unhex a < 8 && !(a = '2' && b = '5') then none
        else if mode = encoding.encodeZone && !(a = '2' && b = '5') &&
            (unhex a * 16 + unhex b != ' '.toNat) &&
            shouldEscapeHost (unhex a * 16 + unhex b) then none
        else (unescape mode t).map (fun r => (unhex a * 16 + unhex b) :: r)
      | _ => none
    else if c = '+' then (unescape mode s).map (fun r => utf8 c ++ r)
    else if (mode = encoding.encodeHost || mode = encoding.encodeZone) && c.toNat < 0x80 &&
        shouldEscapeHost c.toNat then none
    else (unescape mode s).map (fun r => utf8 c ++ r)

/-- Go `getScheme`, the loop from index `i` on: `pre` is `rawURL[:i]` and
the last argument is `rawURL[i:]`. `none` is "missing protocol scheme". -/
def getSchemeLoop (rawURL : List Char) : List Char → List Char → Option (List Char × List Char)
  | _, [] => some ([], rawURL)
  | pre, c :: s =>
    if isLetter c then getSchemeLoop rawURL (pre ++ [c]) s
    else if isDigit c || c = '+' || c = '-' || c = '.' then
      if pre = [] then some ([], rawURL) else getSchemeLoop rawURL (pre ++ [c]) s
    else if c = ':' then
      if pre = [] then none else some (pre, s)
    else some ([], rawURL)

/-- Go `getScheme`. -/
def getScheme (rawURL : List Char) : Option (List Char × List Char) :=
  getSchemeLoop rawURL [] rawURL

/-- Go `validOptionalPort`. -/
def validOptionalPort : List Char → Bool
  | [] => true
  | c :: port => c = ':' && port.all isDigit

/-- Go `validUserinfo`. -/
def validUserinfo (s : List Char) : Bool :=
  s.all (fun r => isLetter r || isDigit r || "-._:~!$&'()*+,;=%@".data.contains r)

/-- The split of `s` at the first occurrence of `"%25"`:
`(s[:zone], s[zone:])` for `zone = strings.Index(s, "%25")`. -/
def splitZone : List Char → Option (List Char × List Char)
  | [] => none
  | c :: s =>
    if "%25".data.isPrefixOf (c :: s) then some ([], c :: s)
    else (splitZone s).map (fun p => (c :: p.1, p.2))

/-- Go `parseHost`. -/
def parseHost (host : List Char) : Option (List Nat) :=
  if host.head? = some '[' then
    match beforeLast ']' host, afterLast ']' host with
    | some pre, some colonPort =>
      if !validOptionalPort colonPort then none
      else
        match splitZone pre with
        | some (h1, z) =>
          match unescape encoding.encodeHost h1, unescape encoding.encodeZone z,
            unescape encoding.encodeHost (']' :: colonPort) with
          | some host1, some host2, some host3 => some (host1 ++ host2 ++ host3)
          | _, _, _ => none
        | none => unescape encoding.encodeHost host
    | _, _ => none
  else
    match afterLast ':' host with
    | some p =>
      if !validOptionalPort (':' :: p) then none else unescape encoding.encodeHost host
    | none => unescape encoding.encodeHost host

/-- Go `parseAuthority`; only the host is returned. -/
def parseAuthority (authority : List Char) : Option (List Nat) :=
  match beforeLast '@' authority, afterLast '@' authority with
  | some userinfo, some h =>
    match parseHost h with
    | none => none
    | some host =>
      if !validUserinfo userinfo then none
      else if !userinfo.contains ':' then
        (unescape encoding.encodeUserPassword userinfo).map (fun _ => host)
      else
        let c := Cut ':' userinfo
        match unescape encoding.encodeUserPassword c.1,
          unescape encoding.encodeUserPassword c.2.1 with
        | some _, some _ => some host
        | _, _ => none
  | _, _ => parseHost authority

/-- The split of `s` at the first `/`: `(s[:i], s[i:])`, or `(s, "")` when
there is none. -/
def splitSlash : List Char → List Char × List Char
  | [] => ([], [])
  | c :: s =>
    if c = '/' then ([], c :: s)
    else
      let r := splitSlash s
      (c :: r.1, r.2)

/-- The end of Go `parse`: the authority, then `setPath`. -/
def parseAuthorityAndPath (scheme rest rawQuery : List Char) : Option URL :=
  if (scheme ≠ [] || !"///".data.isPrefixOf rest) && "//".data.isPrefixOf rest then
    let a := splitSlash (rest.drop 2)
    match parseAuthority a.1 with
    | none => none
    | some host =>
      match unescape encoding.encodePath a.2 with
      | none => none
      | some path => some { Scheme := scheme, Host := host, Path := path, RawQuery := rawQuery }
  else
    match unescape encoding.encodePath rest with
    | none => none
    | some path => some { Scheme := scheme, Path := path, RawQuery := rawQuery }

/-- Go `parse(rawURL, false)`. -/
def parse (rawURL : List Char) : Option URL :=
  if stringContainsCTLByte rawURL then none
  else if rawURL = ['*'] then some { Path := utf8 '*' }
  else
    match getScheme rawURL with
    | none => none
    | some (scheme0, rest0) =>
      let scheme := ToLower scheme0
      let q :=
        if rest0.getLast? = some '?' && Count '?' rest0 = 1 then (rest0.dropLast, [])
        else ((Cut '?' rest0).1, (Cut '?' rest0).2.1)
      if !"/".data.isPrefixOf q.1 then
        if scheme ≠ [] then some { Scheme := scheme, Opaque := q.1, RawQuery := q.2 }
        else if (Cut '/' q.1).1.contains ':' then none
        else parseAuthorityAndPath scheme q.1 q.2
      else parseAuthorityAndPath scheme q.1 q.2

/-- Go `url.Parse`: cut off the fragment, parse, then `setFragment`. -/
def Parse (rawURL : List Char) : Option URL :=
  let c := Cut '#' rawURL
  match parse c.1 with
  | none => none
  | some url =>
    if c.2.1 = [] then some url
    else
      match unescape encoding.encodeFragment c.2.1 with
      | none => none
      | some frag => some { url with Fragment := frag }

/-! ## encoding/base64 -/

/-- The alphabet of `base64.URLEncoding`. -/
def encodeURL : List Char :=
  "ABCDEFGHIJKLMNOPQRSTUVWXYZabcdefghijklmnopqrstuvwxyz0123456789-_".data

/-- The character `enc.encode[v & 0x3F]`. -/
def encodeChar (v : Nat) : Char := encodeURL.getD (v &&& 0x3F) 'A'

/-- Go `base64.RawURLEncoding.EncodeToString`: three bytes give four
characters; a remainder of one or two bytes gives two or three characters
and no padding. -/
def EncodeToString : List Nat → List Char
  | [] => []
  | [a] =>
    let val := a <<< 16
    [encodeChar (val >>> 18), encodeChar (val >>> 12)]
  | [a, b] =>
    let val := a <<< 16 ||| b <<< 8
    [encodeChar (val >>> 18), encodeChar (val >>> 12), encodeChar (val >>> 6)]
  | a :: b :: c :: rest =>
    let val := a <<< 16 ||| b <<< 8 ||| c
    encodeChar (val >>> 18) :: encodeChar (val >>> 12) :: encodeChar (val >>> 6) ::
      encodeChar val :: EncodeToString rest

/-! ## crypto/rand -/

/-- The random source: an infinite tape of draws and the cursor into it. -/
structure Rand where
  tape : Nat → Nat
  pos : Nat

/-- Go `rand.Read(b)` for `len(b) = n`: the next `n` bytes of the tape. -/
def Rand.Read (r : Rand) (n : Nat) : List Nat × Rand :=
  ((List.range n).map (fun i => r.tape (r.pos + i) % 256), { r with pos := r.pos + n })

/-! ## shortener.go -/

/-- The errors `Shorten` and `GetOriginal` return: the two package-level
sentinels and the value made by
`errors.New("failed to generate unique short id")`. -/
inductive Error where
  | ErrInvalidURL
  | ErrNotFound
  | failedToGenerate
  deriving DecidableEq, Repr

/-- Go `v, ok := m[k]`. -/
def mapGet : List (String × String) → String → Option String
  | [], _ => none
  | (k', v) :: m, k => if k' = k then some v else mapGet m k

/-- Go `m[k] = v`: overwrite the binding of `k` or add one. -/
def mapSet : List (String × String) → String → String → List (String × String)
  | [], k, v => [(k, v)]
  | (k', v') :: m, k, v => if k' = k then (k, v) :: m else (k', v') :: mapSet m k v

/-- The engine state (the mutex is left out). -/
structure URLShortener where
  urls : List (String × String)
  deriving DecidableEq, Repr

def NewURLShortener : URLShortener := { urls := [] }

/-- Source `generateShortID`: six random bytes, base64url without padding. -/
def generateShortID (r : Rand) : String × Rand :=
  let b := r.Read 6
  (String.mk (EncodeToString b.1), b.2)

/-- Source `isValidURL`. -/
def isValidURL (str : String) : Bool :=
  let s := TrimSpace str.data
  if s = [] then false
  else
    match Parse s with
    | none => false
    | some u =>
      if u.Scheme ≠ "http".data ∧ u.Scheme ≠ "https".data then false
      else if u.Host = [] then false
      else true

def maxAttempts : Nat := 10

/-- The loop of `Shorten` with `n` iterations left. -/
def shortenLoop (originalURL : String) :
    Nat → URLShortener → Rand → (String × Option Error) × URLShortener × Rand
  | 0, us, r => (("", some Error.failedToGenerate), us, r)
  | n + 1, us, r =>
    let g := generateShortID r
    match mapGet us.urls g.1 with
    | some _ => shortenLoop originalURL n us g.2
    | none => ((g.1, none), { urls := mapSet us.urls g.1 originalURL }, g.2)

/-- Source `URLShortener.Shorten`: the returned pair, the engine after the
call and the random source after the call. -/
def Shorten (us : URLShortener) (r : Rand) (originalURL : String) :
    (String × Option Error) × URLShortener × Rand :=
  if !isValidURL originalURL then (("", some Error.ErrInvalidURL), us, r)
  else shortenLoop originalURL maxAttempts us r

/-- Source `URLShortener.GetOriginal`: the returned pair and the engine
after the call. -/
def GetOriginal (us : URLShortener) (shortID : String) :
    (String × Option Error) × URLShortener :=
  if TrimSpace shortID.data = [] then (("", some Error.ErrNotFound), us)
  else
    match mapGet us.urls shortID with
    | none => (("", some Error.ErrNotFound), us)
    | some orig => ((orig, none), us)

/-- The tape that always draws the byte `0`. -/
def zeroRand : Rand := { tape := fun _ => 0, pos := 0 }

/-- The tape whose `i`-th cell holds `i`. -/
def countRand : Rand := { tape := fun i => i, pos := 0 }

/-- The ASCII letters. -/
def letters : List Char := "ABCDEFGHIJKLMNOPQRSTUVWXYZabcdefghijklmnopqrstuvwxyz".data

/-- The identifier drawn at the `i`-th iteration of the loop of `Shorten`
started on the random source `r`. -/
def candidate (r : Rand) (i : Nat) : String :=
  (generateShortID { r with pos := r.pos + 6 * i }).1

/-- An identifier as the spec describes it: exactly 8 characters, each of
the URL-safe base64 alphabet (which has no `=`). -/
def wellFormedID (id : String) : Prop :=
  id.length = 8 ∧ (∀ c ∈ id.data, c ∈ encodeURL) ∧ '=' ∉ id.data

/-! ## main.go -/

structure shortenRequest where
  URL : String
  deriving DecidableEq, Repr

structure shortenResponse where
  ShortURL : String
  OriginalURL : String
  deriving DecidableEq, Repr

/-- What the handler learns from `json.Decoder` about the request body:
the result of `dec.Decode(&req)` (`none` for an error), the answer of
`dec.More()`, and whether the second `dec.Decode(&extra)` succeeded. -/
structure Body where
  decoded : Option shortenRequest
  more : Bool
  extra : Bool
  deriving DecidableEq, Repr

/-- The parts of `*http.Request` the handlers read. -/
structure Request where
  Method : String
  Path : String
  ContentType : String
  Body : Body
  deriving DecidableEq, Repr

/-- The call a handler makes on its `http.ResponseWriter`. -/
inductive Response where
  /-- The call `http.Error(w, msg, code)`. -/
  | Error (msg : String) (code : Nat)
  /-- The call `http.NotFound(w, r)`. -/
  | NotFound
  /-- A JSON body written with no explicit status. -/
  | JSON (resp : shortenResponse)
  /-- The call `http.Redirect(w, r, url, code)`. -/
  | Redirect (url : String) (code : Nat)
  deriving DecidableEq, Repr

/-- The status code of a response (`http.NotFound` writes 404, a body
written without `WriteHeader` has status 200). -/
def Response.StatusCode : Response → Nat
  | Response.Error _ code => code
  | Response.NotFound => 404
  | Response.JSON _ => 200
  | Response.Redirect _ code => code

/-- The handler that `NewMux` registers for the pattern `/shorten`. -/
def handleShorten (us : URLShortener) (rnd : Rand) (r : Request) :
    Response × URLShortener × Rand :=
  if r.Method ≠ "POST" then (Response.Error "method not allowed" 405, us, rnd)
  else if r.ContentType ≠ "" && !"application/json".data.isPrefixOf r.ContentType.data then
    (Response.Error "unsupported content type" 415, us, rnd)
  else
    match r.Body.decoded with
    | none => (Response.Error "invalid json" 400, us, rnd)
    | some req =>
      if r.Body.more then (Response.Error "invalid json" 400, us, rnd)
      else if r.Body.extra then (Response.Error "invalid json" 400, us, rnd)
      else
        let s := Shorten us rnd req.URL
        match s.1.2 with
        | some err =>
          if err = Error.ErrInvalidURL then (Response.Error "invalid url" 400, s.2.1, s.2.2)
          else (Response.Error "internal error" 500, s.2.1, s.2.2)
        | none =>
          (Response.JSON { ShortURL := s.1.1, OriginalURL := req.URL }, s.2.1, s.2.2)

/-- The handler that `NewMux` registers for the pattern `/`. -/
def handleRoot (us : URLShortener) (r : Request) : Response × URLShortener :=
  if r.Path = "/" then (Response.NotFound, us)
  else if r.Method ≠ "GET" then (Response.Error "method not allowed" 405, us)
  else
    let path := if r.Path.data.head? = some '/' then r.Path.data.tail else r.Path.data
    if path = [] || path.contains '/' then (Response.NotFound, us)
    else
      let g := GetOriginal us (String.mk path)
      match g.1.2 with
      | some err =>
        if err = Error.ErrNotFound then (Response.NotFound, g.2)
        else (Response.Error "internal error" 500, g.2)
      | none => (Response.Redirect g.1.1 302, g.2)

/-! ## Checks of the model on the inputs of the tests -/

example : isValidURL "http://example.com" = true := by decide
example : isValidURL "https://google.com/search?q=test" = true := by decide
example : isValidURL "https://example.com/a?b=c" = true := by decide
example : isValidURL "not-a-url" = false := by decide
example : isValidURL "" = false := by decide
example : isValidURL "   " = false := by decide
example : isValidURL "example.com/path" = false := by decide
example : isValidURL "ftp://example.com/file" = false := by decide
example : isValidURL "http:///path" = false := by decide
example : (generateShortID zeroRand).1 = "AAAAAAAA" := by decide
example : (GetOriginal NewURLShortener "missing").1 = ("", some Error.ErrNotFound) := by decide
example : (GetOriginal NewURLShortener "").1 = ("", some Error.ErrNotFound) := by decide

example : (handleShorten NewURLShortener zeroRand
    ⟨"POST", "/shorten", "application/json", ⟨some ⟨"http://example.com/long/path"⟩, false, false⟩⟩).1
    = Response.JSON ⟨"AAAAAAAA", "http://example.com/long/path"⟩ := by decide
example : (handleShorten NewURLShortener zeroRand
    ⟨"POST", "/shorten", "application/json", ⟨some ⟨"not-a-url"⟩, false, false⟩⟩).1.StatusCode
    = 400 := by decide
example : (handleShorten { urls := [("AAAAAAAA", "http://example.com/a")] } zeroRand
    ⟨"POST", "/shorten", "application/json", ⟨some ⟨"http://example.com"⟩, false, false⟩⟩).1.StatusCode
    = 500 := by decide
example : (handleShorten NewURLShortener zeroRand
    ⟨"POST", "/shorten", "text/plain", ⟨some ⟨"http://example.com"⟩, false, false⟩⟩).1.StatusCode
    = 415 := by decide
example : (handleShorten NewURLShortener zeroRand
    ⟨"GET", "/shorten", "", ⟨none, false, false⟩⟩).1.StatusCode = 405 := by decide
example : (handleRoot { urls := [("AAAAAAAA", "https://example.com/abc")] }
    ⟨"GET", "/AAAAAAAA", "", ⟨none, false, false⟩⟩).1
    = Response.Redirect "https://example.com/abc" 302 := by decide
example : (handleRoot NewURLShortener
    ⟨"GET", "/missingid", "", ⟨none, false, false⟩⟩).1.StatusCode = 404 := by decide
example : (handleRoot NewURLShortener
    ⟨"GET", "/a/b", "", ⟨none, false, false⟩⟩).1.StatusCode = 404 := by decide
example : (handleRoot NewURLShortener
    ⟨"GET", "/", "", ⟨none, false, false⟩⟩).1.StatusCode = 404 := by decide
example : (handleRoot { urls := [("AAAAAAAA", "https://example.com/abc")] }
    ⟨"POST", "/AAAAAAAA", "", ⟨none, false, false⟩⟩).1.StatusCode = 405 := by decide

/-! ## Lemmas -/

theorem encodeChar_mem (v : Nat) : encodeChar v ∈ encodeURL := by
  have h : v &&& 0x3F < 64 := Nat.lt_succ_of_le Nat.and_le_right
  unfold encodeChar
  generalize v &&& 0x3F = k at h
  interval_cases k <;> decide

theorem encodeURL_not_space : ∀ c ∈ encodeURL, IsSpace c = false := by decide

theorem read_six (r : Rand) :
    (r.Read 6).1 = [r.tape (r.pos + 0) % 256, r.tape (r.pos + 1) % 256,
      r.tape (r.pos + 2) % 256, r.tape (r.pos + 3) % 256, r.tape (r.pos + 4) % 256,
      r.tape (r.pos + 5) % 256] := by
  simp [Rand.Read, List.range_succ]

theorem generateShortID_pos (r : Rand) :
    (generateShortID r).2 = { r with pos := r.pos + 6 } := rfl

theorem EncodeToString_mem : ∀ (l : List Nat), ∀ c ∈ EncodeToString l, c ∈ encodeURL
  | [], c, hc => by simp [EncodeToString] at hc
  | [a], c, hc => by
    simp only [EncodeToString, List.mem_cons, List.mem_singleton, List.not_mem_nil,
      or_false] at hc
    rcases hc with h | h <;> rw [h] <;> exact encodeChar_mem _
  | [a, b], c, hc => by
    simp only [EncodeToString, List.mem_cons, List.mem_singleton, List.not_mem_nil,
      or_false] at hc
    rcases hc with h | h | h <;> rw [h] <;> exact encodeChar_mem _
  | a :: b :: d :: rest, c, hc => by
    simp only [EncodeToString, List.mem_cons] at hc
    rcases hc with h | h | h | h | h
    · rw [h]; exact encodeChar_mem _
    · rw [h]; exact encodeChar_mem _
    · rw [h]; exact encodeChar_mem _
    · rw [h]; exact encodeChar_mem _
    · exact EncodeToString_mem rest c h

theorem generateShortID_wellFormed (r : Rand) : wellFormedID (generateShortID r).1 := by
  refine ⟨?_, EncodeToString_mem _, ?_⟩
  · simp [generateShortID, read_six, EncodeToString, String.length]
  · intro h
    exact absurd (EncodeToString_mem _ _ h) (by decide)

theorem dropWhile_ne_nil {p : Char → Bool} {l : List Char} {x : Char} (hx : x ∈ l)
    (hp : p x = false) : l.dropWhile p ≠ [] := by
  induction l with
  | nil => cases hx
  | cons a t ih =>
    rcases List.mem_cons.1 hx with h | h
    · subst h
      simp [List.dropWhile, hp]
    · by_cases ha : p a = true
      · simpa [List.dropWhile, ha] using ih h
      · simp [List.dropWhile, ha]

theorem TrimSpace_ne_nil {c : Char} {t : List Char} (hc : IsSpace c = false) :
    TrimSpace (c :: t) ≠ [] := by
  unfold TrimSpace
  have h1 : (c :: t).dropWhile IsSpace = c :: t := by simp [List.dropWhile, hc]
  rw [h1]
  intro h
  have h2 : (c :: t).reverse.dropWhile IsSpace ≠ [] :=
    dropWhile_ne_nil (List.mem_reverse.2 (List.mem_cons_self c t)) hc
  exact h2 (List.reverse_eq_nil_iff.1 h)

theorem wellFormedID_trim {id : String} (h : wellFormedID id) : TrimSpace id.data ≠ [] := by
  obtain ⟨hl, hm, _⟩ := h
  cases hd : id.data with
  | nil =>
    have : id.length = 0 := by simp [String.length, hd]
    omega
  | cons c t =>
    exact TrimSpace_ne_nil (encodeURL_not_space c (hm c (by simp [hd])))

theorem mapGet_mapSet_self (m : List (String × String)) (k v : String) :
    mapGet (mapSet m k v) k = some v := by
  induction m with
  | nil => simp [mapSet, mapGet]
  | cons a m ih =>
    obtain ⟨k', v'⟩ := a
    by_cases h : k' = k
    · simp [mapSet, mapGet, h]
    · simp [mapSet, mapGet, h, ih]

theorem mapGet_mapSet_other (m : List (String × String)) (k v k2 : String) (h2 : k2 ≠ k) :
    mapGet (mapSet m k v) k2 = mapGet m k2 := by
  induction m with
  | nil =>
    have : ¬ k = k2 := fun h => h2 h.symm
    simp [mapSet, mapGet, this]
  | cons a m ih =>
    obtain ⟨k', v'⟩ := a
    by_cases h : k' = k
    · have : ¬ k = k2 := fun h => h2 h.symm
      subst h
      simp [mapSet, mapGet, this]
    · by_cases h3 : k' = k2
      · subst h3
        simp [mapSet, mapGet, h]
      · simp [mapSet, mapGet, h, h3, ih]

theorem candidate_zero (r : Rand) : candidate r 0 = (generateShortID r).1 := rfl

theorem candidate_succ (r : Rand) (j : Nat) :
    candidate (generateShortID r).2 j = candidate r (j + 1) := by
  have h : r.pos + 6 + 6 * j = r.pos + 6 * (j + 1) := by ring
  simp only [candidate, generateShortID_pos, h]

theorem candidate_wellFormed (r : Rand) (j : Nat) : wellFormedID (candidate r j) :=
  generateShortID_wellFormed _

/-- Either every index below `n` has the property, or there is a first one
that does not. -/
theorem first_failure (P : Nat → Prop) (n : Nat) :
    (∀ j < n, P j) ∨ ∃ k < n, (∀ j < k, P j) ∧ ¬ P k := by
  induction n with
  | zero => exact Or.inl (fun j hj => absurd hj (Nat.not_lt_zero j))
  | succ n ih =>
    rcases ih with h | ⟨k, hk, hlt, hn⟩
    · by_cases hp : P n
      · refine Or.inl (fun j hj => ?_)
        rcases Nat.lt_succ_iff_lt_or_eq.1 hj with h1 | h1
        · exact h j h1
        · rw [h1]; exact hp
      · exact Or.inr ⟨n, Nat.lt_succ_self n, h, hp⟩
    · exact Or.inr ⟨k, Nat.lt_succ_of_lt hk, hlt, hn⟩

/-- When the first `n` candidates are all keys, the loop gives up after
`n` draws and leaves the engine as it was. -/
theorem shortenLoop_exhausted (u : String) (us : URLShortener) :
    ∀ (n : Nat) (r : Rand), (∀ j < n, mapGet us.urls (candidate r j) ≠ none) →
      shortenLoop u n us r =
        (("", some Error.failedToGenerate), us, { r with pos := r.pos + 6 * n })
  | 0, r, _ => rfl
  | n + 1, r, h => by
    have h0 : mapGet us.urls (generateShortID r).1 ≠ none := h 0 (Nat.succ_pos n)
    have hrec := shortenLoop_exhausted u us n (generateShortID r).2
      (fun j hj => by rw [candidate_succ]; exact h (j + 1) (Nat.succ_lt_succ hj))
    obtain ⟨v, hv⟩ := Option.ne_none_iff_exists'.1 h0
    have hp : r.pos + 6 + 6 * n = r.pos + 6 * (n + 1) := by ring
    rw [generateShortID_pos] at hrec
    simp only [hp] at hrec
    simp only [shortenLoop, hv, generateShortID_pos, hrec]

/-- When candidate `k` is the first one that is not a key, the loop returns
it after `k + 1` draws and binds it to the URL. -/
theorem shortenLoop_found (u : String) (us : URLShortener) :
    ∀ (n : Nat) (r : Rand) (k : Nat), k < n →
      (∀ j < k, mapGet us.urls (candidate r j) ≠ none) →
      mapGet us.urls (candidate r k) = none →
      shortenLoop u n us r =
        ((candidate r k, none), { urls := mapSet us.urls (candidate r k) u },
          { r with pos := r.pos + 6 * (k + 1) })
  | 0, _, k, hk, _, _ => absurd hk (Nat.not_lt_zero k)
  | n + 1, r, 0, _, _, hfree => by
    rw [candidate_zero] at hfree
    simp only [shortenLoop, hfree, candidate_zero, generateShortID_pos]
  | n + 1, r, k + 1, hk, hkeys, hfree => by
    have h0 : mapGet us.urls (generateShortID r).1 ≠ none := hkeys 0 (Nat.succ_pos k)
    have hrec := shortenLoop_found u us n (generateShortID r).2 k (Nat.lt_of_succ_lt_succ hk)
      (fun j hj => by rw [candidate_succ]; exact hkeys (j + 1) (Nat.succ_lt_succ hj))
      (by rw [candidate_succ]; exact hfree)
    obtain ⟨v, hv⟩ := Option.ne_none_iff_exists'.1 h0
    have hp : r.pos + 6 + 6 * (k + 1) = r.pos + 6 * (k + 1 + 1) := by ring
    rw [candidate_succ, generateShortID_pos] at hrec
    simp only [hp] at hrec
    simp only [shortenLoop, hv, generateShortID_pos, hrec]

/-- `Shorten` on a valid URL is the loop with ten iterations. -/
theorem Shorten_valid (us : URLShortener) (r : Rand) (u : String) (hv : isValidURL u = true) :
    Shorten us r u = shortenLoop u maxAttempts us r := by
  simp [Shorten, hv]

/-- `Shorten` on an invalid URL. -/
theorem Shorten_invalid (us : URLShortener) (r : Rand) (u : String)
    (hv : isValidURL u = false) :
    Shorten us r u = (("", some Error.ErrInvalidURL), us, r) := by
  simp [Shorten, hv]

/-- The three outcomes of `Shorten`. -/
theorem Shorten_cases (us : URLShortener) (r : Rand) (u : String) :
    (isValidURL u = false ∧ Shorten us r u = (("", some Error.ErrInvalidURL), us, r)) ∨
    (isValidURL u = true ∧ (∀ j < maxAttempts, mapGet us.urls (candidate r j) ≠ none) ∧
      Shorten us r u =
        (("", some Error.failedToGenerate), us, { r with pos := r.pos + 6 * maxAttempts })) ∨
    (isValidURL u = true ∧ ∃ k < maxAttempts,
      (∀ j < k, mapGet us.urls (candidate r j) ≠ none) ∧
      mapGet us.urls (candidate r k) = none ∧
      Shorten us r u =
        ((candidate r k, none), { urls := mapSet us.urls (candidate r k) u },
          { r with pos := r.pos + 6 * (k + 1) })) := by
  cases hv : isValidURL u with
  | false => exact Or.inl ⟨rfl, Shorten_invalid us r u hv⟩
  | true =>
    refine Or.inr ?_
    rcases first_failure (fun j => mapGet us.urls (candidate r j) ≠ none) maxAttempts with
      h | ⟨k, hk, hkeys, hfree⟩
    · exact Or.inl ⟨rfl, h, by rw [Shorten_valid us r u hv, shortenLoop_exhausted u us _ r h]⟩
    · have hfree2 : mapGet us.urls (candidate r k) = none := not_not.1 hfree
      exact Or.inr ⟨rfl, k, hk, hkeys, hfree2, by
        rw [Shorten_valid us r u hv, shortenLoop_found u us _ r k hk hkeys hfree2]⟩

theorem isLetter_mem {c : Char} (h : isLetter c = true) : c ∈ letters := by
  have hc : c = Char.ofNat c.toNat := (Char.ofNat_toNat c).symm
  simp only [isLetter, Bool.or_eq_true, Bool.and_eq_true, decide_eq_true_eq] at h
  generalize c.toNat = n at hc h
  subst hc
  rcases h with ⟨h1, h2⟩ | ⟨h1, h2⟩
  · change 97 ≤ n at h1
    change n ≤ 122 at h2
    interval_cases n <;> decide
  · change 65 ≤ n at h1
    change n ≤ 90 at h2
    interval_cases n <;> decide

theorem letters_facts : ∀ c ∈ letters,
    IsSpace c = false ∧ c ≠ '#' ∧ c ≠ ':' ∧ (c.toNat < 0x20 || c.toNat == 0x7f) = false ∧
    c ≠ '*' ∧ isLetter (lowerASCII c) = true ∧ lowerASCII (lowerASCII c) = lowerASCII c := by
  decide

theorem ToLower_letters {sc : List Char} (h : ∀ c ∈ sc, isLetter c = true) :
    ∀ c ∈ ToLower sc, isLetter c = true := by
  intro c hc
  obtain ⟨d, hd, rfl⟩ := List.mem_map.1 hc
  exact (letters_facts d (isLetter_mem (h d hd))).2.2.2.2.2.1

theorem ToLower_idem {sc : List Char} (h : ∀ c ∈ sc, isLetter c = true) :
    ToLower (ToLower sc) = ToLower sc := by
  induction sc with
  | nil => rfl
  | cons a t ih =>
    have ha := (letters_facts a (isLetter_mem (h a (List.mem_cons_self a t)))).2.2.2.2.2.2
    have iht := ih (fun c hc => h c (List.mem_cons_of_mem a hc))
    simp only [ToLower, List.map_cons] at iht ⊢
    rw [ha, iht]

theorem rdropWhile_cons {p : Char → Bool} {x : Char} (hx : p x = false) (l : List Char) :
    (x :: l).rdropWhile p = x :: l.rdropWhile p := by
  induction l using List.reverseRecOn with
  | nil =>
    have : ([] ++ [x]).rdropWhile p = [] ++ [x] := List.rdropWhile_concat_neg p [] x (by simp [hx])
    simpa using this
  | append_singleton l a ih =>
    by_cases ha : p a = true
    · have h1 : (x :: l ++ [a]).rdropWhile p = (x :: l).rdropWhile p :=
        List.rdropWhile_concat_pos p (x :: l) a ha
      have h2 : (l ++ [a]).rdropWhile p = l.rdropWhile p := List.rdropWhile_concat_pos p l a ha
      rw [← List.cons_append, h1, h2, ih]
    · have h1 : (x :: l ++ [a]).rdropWhile p = x :: l ++ [a] :=
        List.rdropWhile_concat_neg p (x :: l) a ha
      have h2 : (l ++ [a]).rdropWhile p = l ++ [a] := List.rdropWhile_concat_neg p l a ha
      rw [← List.cons_append, h1, h2]
      rfl

theorem rdropWhile_append {p : Char → Bool} (pre l : List Char) (h : ∀ c ∈ pre, p c = false) :
    (pre ++ l).rdropWhile p = pre ++ l.rdropWhile p := by
  induction pre with
  | nil => rfl
  | cons a t ih =>
    rw [List.cons_append, rdropWhile_cons (h a (List.mem_cons_self a t)),
      ih (fun c hc => h c (List.mem_cons_of_mem a hc)), List.cons_append]

/-- Trimming leaves a prefix of non-space characters in place. -/
theorem TrimSpace_append (c : Char) (t l : List Char) (h : ∀ x ∈ c :: t, IsSpace x = false) :
    TrimSpace ((c :: t) ++ l) = (c :: t) ++ l.rdropWhile IsSpace := by
  have h1 : ((c :: t) ++ l).dropWhile IsSpace = (c :: t) ++ l := by
    simp [List.dropWhile, h c (List.mem_cons_self c t)]
  show (((c :: t) ++ l).dropWhile IsSpace).rdropWhile IsSpace = _
  rw [h1, rdropWhile_append _ _ h]

theorem Cut_append (sep : Char) (pre t : List Char) (h : ∀ c ∈ pre, c ≠ sep) :
    Cut sep (pre ++ t) = (pre ++ (Cut sep t).1, (Cut sep t).2.1, (Cut sep t).2.2) := by
  induction pre with
  | nil => rfl
  | cons a p ih =>
    have ha : a ≠ sep := h a (List.mem_cons_self a p)
    simp [Cut, ha, ih (fun c hc => h c (List.mem_cons_of_mem a hc))]

theorem stringContainsCTLByte_append (pre t : List Char)
    (h : ∀ c ∈ pre, (c.toNat < 0x20 || c.toNat == 0x7f) = false) :
    stringContainsCTLByte (pre ++ t) = stringContainsCTLByte t := by
  induction pre with
  | nil => rfl
  | cons a p ih =>
    have ih2 := ih (fun c hc => h c (List.mem_cons_of_mem a hc))
    have ha := h a (List.mem_cons_self a p)
    simp only [stringContainsCTLByte, List.cons_append, List.any_cons] at ih2 ⊢
    rw [ha, ih2, Bool.false_or]

theorem getSchemeLoop_letters (raw x : List Char) :
    ∀ (sc pre : List Char), (∀ c ∈ sc, isLetter c = true) → pre ++ sc ≠ [] →
      getSchemeLoop raw pre (sc ++ ':' :: x) = some (pre ++ sc, x)
  | [], pre, _, hne => by
    have hp : pre ≠ [] := by simpa using hne
    simp [getSchemeLoop, isLetter, isDigit, hp]
  | a :: t, pre, hl, _ => by
    have ha : isLetter a = true := hl a (List.mem_cons_self a t)
    have ih := getSchemeLoop_letters raw x t (pre ++ [a])
      (fun c hc => hl c (List.mem_cons_of_mem a hc)) (by simp)
    show getSchemeLoop raw pre (a :: (t ++ ':' :: x)) = some (pre ++ a :: t, x)
    simp only [getSchemeLoop, ha, if_true]
    rw [ih]
    simp

theorem getScheme_letters (sc x : List Char) (hne : sc ≠ [])
    (hl : ∀ c ∈ sc, isLetter c = true) : getScheme (sc ++ ':' :: x) = some (sc, x) := by
  have h := getSchemeLoop_letters (sc ++ ':' :: x) x sc [] hl (by simpa using hne)
  simpa [getScheme] using h

theorem letters_no_ctl (sc x : List Char) (hl : ∀ c ∈ sc, isLetter c = true) :
    stringContainsCTLByte (sc ++ ':' :: x) = stringContainsCTLByte x := by
  have h := stringContainsCTLByte_append (sc ++ [':']) x (by
    intro c hc
    rcases List.mem_append.1 hc with h | h
    · exact (letters_facts c (isLetter_mem (hl c h))).2.2.2.1
    · rw [List.mem_singleton.1 h]; decide)
  simpa using h

theorem letters_not_star (sc x : List Char) (hne : sc ≠ [])
    (hl : ∀ c ∈ sc, isLetter c = true) : sc ++ ':' :: x ≠ ['*'] := by
  cases sc with
  | nil => exact absurd rfl hne
  | cons a t =>
    intro h
    simp only [List.cons_append, List.cons.injEq] at h
    exact (letters_facts a (isLetter_mem (hl a (List.mem_cons_self a t)))).2.2.2.2.1 h.1

theorem parse_scheme_case (sc x : List Char) (hne : sc ≠ [])
    (hl : ∀ c ∈ sc, isLetter c = true) :
    parse (sc ++ ':' :: x) = parse (ToLower sc ++ ':' :: x) := by
  have hl2 := ToLower_letters hl
  have hne2 : ToLower sc ≠ [] := by
    cases sc with
    | nil => exact absurd rfl hne
    | cons a t => simp [ToLower]
  unfold parse
  rw [letters_no_ctl sc x hl, letters_no_ctl (ToLower sc) x hl2,
    if_neg (letters_not_star sc x hne hl), if_neg (letters_not_star (ToLower sc) x hne2 hl2),
    getScheme_letters sc x hne hl, getScheme_letters (ToLower sc) x hne2 hl2]
  simp only [ToLower_idem hl]

theorem Cut_hash_letters (sc rest : List Char) (hl : ∀ c ∈ sc, isLetter c = true) :
    Cut '#' (sc ++ ':' :: rest) =
      (sc ++ ':' :: (Cut '#' rest).1, (Cut '#' rest).2.1, (Cut '#' rest).2.2) := by
  have h := Cut_append '#' (sc ++ [':']) rest (by
    intro c hc
    rcases List.mem_append.1 hc with h | h
    · exact (letters_facts c (isLetter_mem (hl c h))).2.1
    · rw [List.mem_singleton.1 h]; decide)
  simpa using h

/-- The parser sees the scheme only through its lower-case form. -/
theorem Parse_scheme_case (sc rest : List Char) (hne : sc ≠ [])
    (hl : ∀ c ∈ sc, isLetter c = true) :
    Parse (sc ++ ':' :: rest) = Parse (ToLower sc ++ ':' :: rest) := by
  unfold Parse
  rw [Cut_hash_letters sc rest hl, Cut_hash_letters (ToLower sc) rest (ToLower_letters hl)]
  simp only [parse_scheme_case sc _ hne hl]

/-- Trimming a string that starts with a scheme and a colon trims only its
end. -/
theorem TrimSpace_scheme (sc rest : List Char) (hne : sc ≠ [])
    (hl : ∀ c ∈ sc, isLetter c = true) :
    TrimSpace (sc ++ ':' :: rest) = sc ++ ':' :: rest.rdropWhile IsSpace := by
  cases sc with
  | nil => exact absurd rfl hne
  | cons a t =>
    have h := TrimSpace_append a (t ++ [':']) rest (by
      intro c hc
      have hc2 : c ∈ (a :: t) ++ [':'] := by simpa using hc
      rcases List.mem_append.1 hc2 with h | h
      · exact (letters_facts c (isLetter_mem (hl c h))).1
      · rw [List.mem_singleton.1 h]; decide)
    simpa using h

/-- The verdict of `isValidURL` does not depend on the case of the letters
of the scheme. -/
theorem isValidURL_lower (sc rest : List Char) (hne : sc ≠ [])
    (hl : ∀ c ∈ sc, isLetter c = true) :
    isValidURL (String.mk (sc ++ ':' :: rest)) =
      isValidURL (String.mk (ToLower sc ++ ':' :: rest)) := by
  have hne2 : ToLower sc ≠ [] := by
    cases sc with
    | nil => exact absurd rfl hne
    | cons a t => simp [ToLower]
  unfold isValidURL
  simp only [TrimSpace_scheme sc rest hne hl,
    TrimSpace_scheme (ToLower sc) rest hne2 (ToLower_letters hl),
    Parse_scheme_case sc _ hne hl]
  simp

theorem parseAuthorityAndPath_Scheme (scheme rest q : List Char) (u : URL)
    (h : parseAuthorityAndPath scheme rest q = some u) : u.Scheme = scheme := by
  unfold parseAuthorityAndPath at h
  dsimp only at h
  repeat' split at h
  all_goals first
    | (cases h; done)
    | (cases h; rfl)

theorem parse_Scheme (sc x : List Char) (hne : sc ≠ []) (hl : ∀ c ∈ sc, isLetter c = true)
    (u : URL) (h : parse (sc ++ ':' :: x) = some u) : u.Scheme = ToLower sc := by
  unfold parse at h
  rw [letters_no_ctl sc x hl, if_neg (letters_not_star sc x hne hl),
    getScheme_letters sc x hne hl] at h
  dsimp only at h
  repeat' split at h
  all_goals first
    | (cases h; done)
    | (cases h; rfl)
    | exact parseAuthorityAndPath_Scheme _ _ _ _ h

theorem Parse_Scheme (sc rest : List Char) (hne : sc ≠ [])
    (hl : ∀ c ∈ sc, isLetter c = true) (u : URL)
    (h : Parse (sc ++ ':' :: rest) = some u) : u.Scheme = ToLower sc := by
  unfold Parse at h
  rw [Cut_hash_letters sc rest hl] at h
  dsimp only at h
  cases hp : parse (sc ++ ':' :: (Cut '#' rest).1) with
  | none => rw [hp] at h; cases h
  | some url =>
    have hs := parse_Scheme sc _ hne hl url hp
    rw [hp] at h
    dsimp only at h
    repeat' split at h
    all_goals first
      | (cases h; done)
      | (cases h; exact hs)

/-- An input whose scheme, lower-cased, is neither `http` nor `https` is
rejected. -/
theorem isValidURL_other_scheme (sc rest : List Char) (hne : sc ≠ [])
    (hl : ∀ c ∈ sc, isLetter c = true) (h1 : ToLower sc ≠ "http".data)
    (h2 : ToLower sc ≠ "https".data) : isValidURL (String.mk (sc ++ ':' :: rest)) = false := by
  unfold isValidURL
  simp only [TrimSpace_scheme sc rest hne hl]
  cases hp : Parse (sc ++ ':' :: rest.rdropWhile IsSpace) with
  | none => simp
  | some u =>
    have hs := Parse_Scheme sc _ hne hl u hp
    simp [hs, h1, h2]

theorem mapSet_absent (m : List (String × String)) (k v : String) (h : mapGet m k = none) :
    mapSet m k v = m ++ [(k, v)] := by
  induction m with
  | nil => rfl
  | cons a m ih =>
    obtain ⟨k', v'⟩ := a
    by_cases hk : k' = k
    · simp [mapGet, hk] at h
    · simp only [mapGet, hk, if_false] at h
      simp [mapSet, hk, ih h]

/-! ## The claims -/

/-- C1: round trip. Whatever the engine state, the input string and the
random draws, when `Shorten u` returns `(id, nil)` then `GetOriginal id` on
the resulting engine returns `(u, nil)` with `u` the string as passed in,
untrimmed. -/
theorem shorten_getOriginal_roundtrip (us us' : URLShortener) (r r' : Rand) (u id : String)
    (h : Shorten us r u = ((id, none), us', r')) :
    GetOriginal us' id = ((u, none), us') := by
  rcases Shorten_cases us r u with ⟨_, e⟩ | ⟨_, _, e⟩ | ⟨_, k, _, _, _, e⟩
  · rw [e] at h; simp at h
  · rw [e] at h; simp at h
  · rw [e] at h
    simp only [Prod.mk.injEq] at h
    obtain ⟨⟨hid, _⟩, hus, _⟩ := h
    subst hid
    subst hus
    have ht : TrimSpace (candidate r k).data ≠ [] := wellFormedID_trim (candidate_wellFormed r k)
    simp [GetOriginal, ht, mapGet_mapSet_self]

/-- C1 at the empty engine with the all-zero tape and a URL that has
leading and trailing whitespace. -/
theorem shorten_getOriginal_roundtrip_witness :
    GetOriginal { urls := [("AAAAAAAA", " http://example.com/long/path\n")] } "AAAAAAAA" =
      ((" http://example.com/long/path\n", none),
        { urls := [("AAAAAAAA", " http://example.com/long/path\n")] }) :=
  shorten_getOriginal_roundtrip NewURLShortener _ zeroRand { tape := zeroRand.tape, pos := 6 }
    " http://example.com/long/path\n" "AAAAAAAA" rfl

/-- C2: an input that fails validation (empty after trimming, unparseable,
scheme other than http and https, or empty host) makes `Shorten` return
`("", ErrInvalidURL)` and leaves the mapping equal to what it was, so
`GetOriginal` answers the same on every id before and after. -/
theorem shorten_invalid_unchanged (us : URLShortener) (r : Rand) (u : String)
    (h : TrimSpace u.data = [] ∨ Parse (TrimSpace u.data) = none ∨
      ∃ p, Parse (TrimSpace u.data) = some p ∧
        ((p.Scheme ≠ "http".data ∧ p.Scheme ≠ "https".data) ∨ p.Host = [])) :
    (Shorten us r u).1 = ("", some Error.ErrInvalidURL) ∧
    (Shorten us r u).2.1 = us ∧
    ∀ id, GetOriginal (Shorten us r u).2.1 id = GetOriginal us id := by
  have hv : isValidURL u = false := by
    unfold isValidURL
    rcases h with h | h | ⟨p, hp, h | h⟩
    · simp [h]
    · simp [h]
    · simp [hp, h]
    · simp [hp, h]
  rw [Shorten_invalid us r u hv]
  exact ⟨rfl, rfl, fun _ => rfl⟩

/-- C2 at the engine holding one entry and the input `ftp://example.com/file`. -/
theorem shorten_invalid_unchanged_witness :
    (Shorten { urls := [("AAAAAAAA", "http://example.com")] } zeroRand
      "ftp://example.com/file").1 = ("", some Error.ErrInvalidURL) ∧
    (Shorten { urls := [("AAAAAAAA", "http://example.com")] } zeroRand
      "ftp://example.com/file").2.1 = { urls := [("AAAAAAAA", "http://example.com")] } ∧
    ∀ id, GetOriginal (Shorten { urls := [("AAAAAAAA", "http://example.com")] } zeroRand
      "ftp://example.com/file").2.1 id =
        GetOriginal { urls := [("AAAAAAAA", "http://example.com")] } id :=
  shorten_invalid_unchanged _ _ _
    (Or.inr (Or.inr ⟨URL.mk "ftp".data [] ("example.com".data.map Char.toNat)
      ("/file".data.map Char.toNat) [] [], by decide, Or.inl (by decide)⟩))

/-- C4: uniqueness. When two `Shorten` calls made one after the other on
the same engine both succeed, the two identifiers differ, whatever the URLs
and whatever bytes the generator drew in either call. -/
theorem shorten_twice_distinct (us us1 us2 : URLShortener) (r1 r1' r2 r2' : Rand)
    (u1 u2 id1 id2 : String)
    (h1 : Shorten us r1 u1 = ((id1, none), us1, r1'))
    (h2 : Shorten us1 r2 u2 = ((id2, none), us2, r2')) : id1 ≠ id2 := by
  have g1 : mapGet us1.urls id1 = some u1 := by
    rcases Shorten_cases us r1 u1 with ⟨_, e⟩ | ⟨_, _, e⟩ | ⟨_, k, _, _, _, e⟩
    · rw [e] at h1; simp at h1
    · rw [e] at h1; simp at h1
    · rw [e] at h1
      simp only [Prod.mk.injEq] at h1
      obtain ⟨⟨hid, _⟩, hus, _⟩ := h1
      subst hid
      subst hus
      exact mapGet_mapSet_self _ _ _
  have g2 : mapGet us1.urls id2 = none := by
    rcases Shorten_cases us1 r2 u2 with ⟨_, e⟩ | ⟨_, _, e⟩ | ⟨_, k, _, _, hfree, e⟩
    · rw [e] at h2; simp at h2
    · rw [e] at h2; simp at h2
    · rw [e] at h2
      simp only [Prod.mk.injEq] at h2
      obtain ⟨⟨hid, _⟩, _, _⟩ := h2
      subst hid
      exact hfree
  intro h
  rw [h, g2] at g1
  exact Option.noConfusion g1

/-- C4 at the empty engine: two calls in a row on the tape `0, 1, 2, ...`,
the second with the same URL as the first. -/
theorem shorten_twice_distinct_witness : "AAECAwQF" ≠ "BgcICQoL" :=
  shorten_twice_distinct NewURLShortener
    { urls := [("AAECAwQF", "http://example.com/a")] }
    { urls := [("AAECAwQF", "http://example.com/a"), ("BgcICQoL", "http://example.com/a")] }
    countRand { tape := countRand.tape, pos := 6 } { tape := countRand.tape, pos := 6 }
    { tape := countRand.tape, pos := 12 }
    "http://example.com/a" "http://example.com/a" "AAECAwQF" "BgcICQoL" rfl rfl

/-- C3, the claim as written fails: on the engine that already holds the
identifier of six zero bytes, a valid URL and the all-zero tape make all ten
candidates collide and `Shorten` does not succeed. The engine is the one the
first call leaves behind. -/
theorem shorten_valid_can_fail :
    isValidURL "http://example.com/b" = true ∧
    (Shorten NewURLShortener zeroRand "http://example.com/a").1 = ("AAAAAAAA", none) ∧
    (Shorten (Shorten NewURLShortener zeroRand "http://example.com/a").2.1
      (Shorten NewURLShortener zeroRand "http://example.com/a").2.2
      "http://example.com/b").1 = ("", some Error.failedToGenerate) := by
  decide

/-- C3 as amended: `generateShortID` maps every six random bytes to an
identifier of exactly 8 characters of the URL-safe base64 alphabet, with no
`=`; on a valid input `Shorten` succeeds exactly when one of its ten
candidates is not yet a key, the identifier it then returns is such an
8-character string, and otherwise it fails with the error of the exhausted
retries. -/
theorem shorten_valid_id_shape (us : URLShortener) (r : Rand) (u : String)
    (hv : isValidURL u = true) :
    (∀ r0 : Rand, wellFormedID (generateShortID r0).1) ∧
    ((Shorten us r u).1.2 = none ↔ ∃ j < maxAttempts, mapGet us.urls (candidate r j) = none) ∧
    ((Shorten us r u).1.2 = none → wellFormedID (Shorten us r u).1.1) ∧
    ((Shorten us r u).1.2 ≠ none →
      (Shorten us r u).1 = ("", some Error.failedToGenerate)) := by
  refine ⟨generateShortID_wellFormed, ?_⟩
  rcases Shorten_cases us r u with ⟨hf, _⟩ | ⟨_, hall, e⟩ | ⟨_, k, hk, _, hfree, e⟩
  · rw [hv] at hf; cases hf
  · rw [e]
    refine ⟨⟨fun h => by simp at h, fun ⟨j, hj, hfree⟩ => absurd hfree (hall j hj)⟩,
      fun h => by simp at h, fun _ => rfl⟩
  · rw [e]
    exact ⟨⟨fun _ => ⟨k, hk, hfree⟩, fun _ => rfl⟩, fun _ => candidate_wellFormed r k,
      fun h => absurd rfl h⟩

/-- C3 as amended, at the empty engine with the all-zero tape. -/
theorem shorten_valid_id_shape_witness :
    (∀ r0 : Rand, wellFormedID (generateShortID r0).1) ∧
    ((Shorten NewURLShortener zeroRand "http://example.com").1.2 = none ↔
      ∃ j < maxAttempts, mapGet NewURLShortener.urls (candidate zeroRand j) = none) ∧
    ((Shorten NewURLShortener zeroRand "http://example.com").1.2 = none →
      wellFormedID (Shorten NewURLShortener zeroRand "http://example.com").1.1) ∧
    ((Shorten NewURLShortener zeroRand "http://example.com").1.2 ≠ none →
      (Shorten NewURLShortener zeroRand "http://example.com").1 =
        ("", some Error.failedToGenerate)) :=
  shorten_valid_id_shape NewURLShortener zeroRand "http://example.com" (by decide)

/-- C5: collision policy. On a valid input `Shorten` reads at most ten
candidates (60 bytes) from the random source; it returns the first candidate
that is not a key of the mapping, bound to the URL, after drawing no more
than that one; when all ten candidates are keys it returns an error that is
neither `ErrInvalidURL` nor `ErrNotFound` and the engine is exactly as it
was. -/
theorem shorten_collision_policy (us : URLShortener) (r : Rand) (u : String)
    (hv : isValidURL u = true) :
    (Shorten us r u).2.2.pos ≤ r.pos + 6 * 10 ∧
    (∀ k < 10, (∀ j < k, mapGet us.urls (candidate r j) ≠ none) →
      mapGet us.urls (candidate r k) = none →
      Shorten us r u = ((candidate r k, none),
        { urls := mapSet us.urls (candidate r k) u }, { r with pos := r.pos + 6 * (k + 1) })) ∧
    ((∀ j < 10, mapGet us.urls (candidate r j) ≠ none) →
      ∃ e, Shorten us r u = (("", some e), us, { r with pos := r.pos + 6 * 10 }) ∧
        e ≠ Error.ErrInvalidURL ∧ e ≠ Error.ErrNotFound) := by
  refine ⟨?_, ?_, ?_⟩
  · rcases Shorten_cases us r u with ⟨hf, _⟩ | ⟨_, _, e⟩ | ⟨_, k, hk, _, _, e⟩
    · rw [hv] at hf; cases hf
    · rw [e]; exact Nat.le_refl _
    · rw [e]
      have : k < 10 := hk
      show r.pos + 6 * (k + 1) ≤ r.pos + 6 * 10
      omega
  · intro k hk hkeys hfree
    rw [Shorten_valid us r u hv]
    exact shortenLoop_found u us maxAttempts r k hk hkeys hfree
  · intro hall
    refine ⟨Error.failedToGenerate, ?_, by decide, by decide⟩
    rw [Shorten_valid us r u hv]
    exact shortenLoop_exhausted u us maxAttempts r hall

/-- C5 at the engine that holds the identifier of six zero bytes, with the
all-zero tape: all ten candidates collide. -/
theorem shorten_collision_policy_witness :
    (Shorten { urls := [("AAAAAAAA", "http://example.com/a")] } zeroRand
      "http://example.com/b").2.2.pos ≤ zeroRand.pos + 6 * 10 ∧
    (∀ k < 10, (∀ j < k, mapGet [("AAAAAAAA", "http://example.com/a")]
        (candidate zeroRand j) ≠ none) →
      mapGet [("AAAAAAAA", "http://example.com/a")] (candidate zeroRand k) = none →
      Shorten { urls := [("AAAAAAAA", "http://example.com/a")] } zeroRand
        "http://example.com/b" = ((candidate zeroRand k, none),
        URLShortener.mk (mapSet [("AAAAAAAA", "http://example.com/a")] (candidate zeroRand k)
          "http://example.com/b"), { zeroRand with pos := zeroRand.pos + 6 * (k + 1) })) ∧
    ((∀ j < 10, mapGet [("AAAAAAAA", "http://example.com/a")] (candidate zeroRand j) ≠ none) →
      ∃ e, Shorten { urls := [("AAAAAAAA", "http://example.com/a")] } zeroRand
        "http://example.com/b" = (("", some e),
          { urls := [("AAAAAAAA", "http://example.com/a")] },
          { zeroRand with pos := zeroRand.pos + 6 * 10 }) ∧
        e ≠ Error.ErrInvalidURL ∧ e ≠ Error.ErrNotFound) :=
  shorten_collision_policy { urls := [("AAAAAAAA", "http://example.com/a")] } zeroRand
    "http://example.com/b" (by decide)

/-- C6: `GetOriginal id` returns `("", ErrNotFound)` exactly when `id` is
empty after trimming whitespace or the untrimmed `id` is not a key of the
mapping; otherwise it returns the stored URL and a nil error; the engine is
unchanged in both cases. -/
theorem getOriginal_spec (us : URLShortener) (id : String) :
    ((GetOriginal us id).1 = ("", some Error.ErrNotFound) ↔
      (TrimSpace id.data = [] ∨ mapGet us.urls id = none)) ∧
    (¬ (TrimSpace id.data = [] ∨ mapGet us.urls id = none) →
      ∃ v, mapGet us.urls id = some v ∧ (GetOriginal us id).1 = (v, none)) ∧
    (GetOriginal us id).2 = us := by
  unfold GetOriginal
  by_cases ht : TrimSpace id.data = []
  · simp [ht]
  · cases hg : mapGet us.urls id with
    | none => simp [ht]
    | some v => simp [ht]

/-- C8: entries are immutable. Across any `Shorten` call every key keeps its
URL; a successful call appends exactly one binding, of an identifier that
was not a key, to the URL passed in; a failed call leaves the engine as it
was; `GetOriginal` never changes the engine. -/
theorem entries_immutable (us : URLShortener) (r : Rand) (u id0 : String) :
    (∀ k v, mapGet us.urls k = some v → mapGet (Shorten us r u).2.1.urls k = some v) ∧
    ((Shorten us r u).1.2 = none →
      mapGet us.urls (Shorten us r u).1.1 = none ∧
      (Shorten us r u).2.1.urls = us.urls ++ [((Shorten us r u).1.1, u)] ∧
      ∀ k, k ≠ (Shorten us r u).1.1 →
        mapGet (Shorten us r u).2.1.urls k = mapGet us.urls k) ∧
    ((Shorten us r u).1.2 ≠ none → (Shorten us r u).2.1 = us) ∧
    (GetOriginal us id0).2 = us := by
  have hget : (GetOriginal us id0).2 = us := by
    unfold GetOriginal
    by_cases ht : TrimSpace id0.data = []
    · simp [ht]
    · cases hg : mapGet us.urls id0 <;> simp [ht]
  rcases Shorten_cases us r u with ⟨_, e⟩ | ⟨_, _, e⟩ | ⟨_, k, _, _, hfree, e⟩
  · rw [e]
    exact ⟨fun _ _ h => h, fun h => by simp at h, fun _ => rfl, hget⟩
  · rw [e]
    exact ⟨fun _ _ h => h, fun h => by simp at h, fun _ => rfl, hget⟩
  · rw [e]
    refine ⟨fun k2 v h => ?_, fun _ => ⟨hfree, mapSet_absent _ _ _ hfree, fun k2 hk2 =>
      mapGet_mapSet_other _ _ _ _ hk2⟩, fun h => absurd rfl h, hget⟩
    have hne : k2 ≠ candidate r k := by
      intro h2
      rw [h2, hfree] at h
      exact Option.noConfusion h
    show mapGet (mapSet us.urls (candidate r k) u) k2 = some v
    rw [mapGet_mapSet_other _ _ _ _ hne]
    exact h

/-- C7, the claim as written fails: `url.Parse` lower-cases the scheme
before `isValidURL` compares it, so the two inputs the claim names are
accepted and `Shorten` succeeds on them. -/
theorem uppercase_scheme_accepted :
    isValidURL "HTTP://example.com" = true ∧ isValidURL "Https://example.com" = true ∧
    (Shorten NewURLShortener zeroRand "HTTP://example.com").1 = ("AAAAAAAA", none) ∧
    (Shorten NewURLShortener zeroRand "Https://example.com").1 = ("AAAAAAAA", none) := by
  decide

/-- C7 as amended: scheme matching is case-insensitive. For an input that
starts with a scheme of letters and a colon, `isValidURL` gives the verdict
it gives for the same input with the scheme in lower case, `Shorten` fails
with `ErrInvalidURL` on the one exactly when it does on the other, and the
input is rejected whenever the lower-cased scheme is neither `http` nor
`https`. -/
theorem scheme_case_insensitive (us : URLShortener) (r : Rand) (sc rest : List Char)
    (hne : sc ≠ []) (hl : ∀ c ∈ sc, isLetter c = true) :
    isValidURL (String.mk (sc ++ ':' :: rest)) =
      isValidURL (String.mk (ToLower sc ++ ':' :: rest)) ∧
    ((Shorten us r (String.mk (sc ++ ':' :: rest))).1 = ("", some Error.ErrInvalidURL) ↔
      (Shorten us r (String.mk (ToLower sc ++ ':' :: rest))).1 =
        ("", some Error.ErrInvalidURL)) ∧
    (ToLower sc ≠ "http".data → ToLower sc ≠ "https".data →
      isValidURL (String.mk (sc ++ ':' :: rest)) = false ∧
      (Shorten us r (String.mk (sc ++ ':' :: rest))).1 = ("", some Error.ErrInvalidURL)) := by
  have hv := isValidURL_lower sc rest hne hl
  have key : ∀ u : String,
      (Shorten us r u).1 = ("", some Error.ErrInvalidURL) ↔ isValidURL u = false := by
    intro u
    rcases Shorten_cases us r u with ⟨hf, e⟩ | ⟨ht, _, e⟩ | ⟨ht, k, _, _, _, e⟩
    · rw [e]; simp [hf]
    · rw [e]; simp [ht]
    · rw [e]; simp [ht]
  refine ⟨hv, ?_, ?_⟩
  · rw [key, key, hv]
  · intro h1 h2
    have hf := isValidURL_other_scheme sc rest hne hl h1 h2
    exact ⟨hf, (key _).2 hf⟩

/-- C7 as amended, at the input `HTTP://example.com`. -/
theorem scheme_case_insensitive_witness :
    isValidURL (String.mk ("HTTP".data ++ ':' :: "//example.com".data)) =
      isValidURL (String.mk (ToLower "HTTP".data ++ ':' :: "//example.com".data)) ∧
    ((Shorten NewURLShortener zeroRand
        (String.mk ("HTTP".data ++ ':' :: "//example.com".data))).1 =
          ("", some Error.ErrInvalidURL) ↔
      (Shorten NewURLShortener zeroRand
        (String.mk (ToLower "HTTP".data ++ ':' :: "//example.com".data))).1 =
          ("", some Error.ErrInvalidURL)) ∧
    (ToLower "HTTP".data ≠ "http".data → ToLower "HTTP".data ≠ "https".data →
      isValidURL (String.mk ("HTTP".data ++ ':' :: "//example.com".data)) = false ∧
      (Shorten NewURLShortener zeroRand
        (String.mk ("HTTP".data ++ ':' :: "//example.com".data))).1 =
          ("", some Error.ErrInvalidURL)) :=
  scheme_case_insensitive NewURLShortener zeroRand "HTTP".data "//example.com".data
    (by decide) (by decide)

/-- C9: the handlers map each engine outcome to its own status. For a
well-formed POST to the `/shorten` handler (JSON content type or none, a
body that decodes to one object with nothing after it): `ErrInvalidURL`
gives 400, any other error of `Shorten` gives 500, and success gives a 200
JSON answer whose `original_url` is the submitted url and whose `short_url`
is the new id. For a GET to the `/` handler on a path of one segment:
`ErrNotFound` gives 404 and a hit gives a 302 redirect to the stored URL. -/
theorem handlers_status_mapping (us : URLShortener) (rnd : Rand) (rp rg : Request)
    (req : shortenRequest) (seg : List Char)
    (hm : rp.Method = "POST")
    (hct : rp.ContentType = "" ∨ "application/json".data.isPrefixOf rp.ContentType.data = true)
    (hb : rp.Body = { decoded := some req, more := false, extra := false })
    (hg : rg.Method = "GET") (hpath : rg.Path = String.mk ('/' :: seg))
    (hseg : seg ≠ []) (hslash : '/' ∉ seg) :
    ((Shorten us rnd req.URL).1.2 = some Error.ErrInvalidURL →
      (handleShorten us rnd rp).1.StatusCode = 400) ∧
    (∀ e, (Shorten us rnd req.URL).1.2 = some e → e ≠ Error.ErrInvalidURL →
      (handleShorten us rnd rp).1.StatusCode = 500) ∧
    ((Shorten us rnd req.URL).1.2 = none →
      (handleShorten us rnd rp).1 =
        Response.JSON { ShortURL := (Shorten us rnd req.URL).1.1, OriginalURL := req.URL } ∧
      (handleShorten us rnd rp).1.StatusCode = 200) ∧
    ((GetOriginal us (String.mk seg)).1.2 = some Error.ErrNotFound →
      (handleRoot us rg).1 = Response.NotFound ∧ (handleRoot us rg).1.StatusCode = 404) ∧
    (∀ orig, (GetOriginal us (String.mk seg)).1 = (orig, none) →
      mapGet us.urls (String.mk seg) = some orig ∧
      (handleRoot us rg).1 = Response.Redirect orig 302 ∧
      (handleRoot us rg).1.StatusCode = 302) := by
  have hct2 : (rp.ContentType ≠ "" && !"application/json".data.isPrefixOf rp.ContentType.data)
      = false := by
    rcases hct with h | h
    · simp [h]
    · simp [h]
  have hpost : handleShorten us rnd rp =
      (match (Shorten us rnd req.URL).1.2 with
        | some err =>
          if err = Error.ErrInvalidURL then
            (Response.Error "invalid url" 400, (Shorten us rnd req.URL).2.1,
              (Shorten us rnd req.URL).2.2)
          else
            (Response.Error "internal error" 500, (Shorten us rnd req.URL).2.1,
              (Shorten us rnd req.URL).2.2)
        | none =>
          (Response.JSON { ShortURL := (Shorten us rnd req.URL).1.1, OriginalURL := req.URL },
            (Shorten us rnd req.URL).2.1, (Shorten us rnd req.URL).2.2)) := by
    unfold handleShorten
    rw [if_neg (by simp [hm]), hct2, hb]
    simp
  have hroot : rg.Path ≠ "/" := by
    rw [hpath]
    intro h
    have h2 : ('/' :: seg) = ['/'] := congrArg String.data h
    simp only [List.cons.injEq, true_and] at h2
    exact hseg h2
  have hc : (seg = [] || seg.contains '/') = false := by
    simp [hseg, hslash]
  have hget : handleRoot us rg =
      (match (GetOriginal us (String.mk seg)).1.2 with
        | some err =>
          if err = Error.ErrNotFound then
            (Response.NotFound, (GetOriginal us (String.mk seg)).2)
          else (Response.Error "internal error" 500, (GetOriginal us (String.mk seg)).2)
        | none =>
          (Response.Redirect (GetOriginal us (String.mk seg)).1.1 302,
            (GetOriginal us (String.mk seg)).2)) := by
    unfold handleRoot
    rw [if_neg hroot, if_neg (by simp [hg]), hpath]
    simp only [List.head?_cons, if_true, List.tail_cons, hc]
    simp
  refine ⟨fun h => ?_, fun e h hne => ?_, fun h => ?_, fun h => ?_, fun orig h => ?_⟩
  · rw [hpost, h]; simp [Response.StatusCode]
  · rw [hpost, h]; simp [hne, Response.StatusCode]
  · rw [hpost, h]; simp [Response.StatusCode]
  · rw [hget, h]; simp [Response.StatusCode]
  · have h1 : (GetOriginal us (String.mk seg)).1.2 = none := by rw [h]
    have h2 : (GetOriginal us (String.mk seg)).1.1 = orig := by rw [h]
    refine ⟨?_, ?_, ?_⟩
    · unfold GetOriginal at h
      split at h
      · simp at h
      · split at h
        · simp at h
        · rename_i v hv
          simp only [Prod.mk.injEq, and_true] at h
          rw [hv, h]
    · rw [hget, h1, h2]
    · rw [hget, h1, h2]; simp [Response.StatusCode]

/-- C9 at the engine that holds `AAAAAAAA`: a POST of `http://example.com/b`
with the tape `0, 1, 2, ...`, and a GET of `/AAAAAAAA`. -/
theorem handlers_status_mapping_witness :
    ((Shorten { urls := [("AAAAAAAA", "http://example.com/a")] } countRand
        "http://example.com/b").1.2 = some Error.ErrInvalidURL →
      (handleShorten { urls := [("AAAAAAAA", "http://example.com/a")] } countRand
        ⟨"POST", "/shorten", "application/json", ⟨some ⟨"http://example.com/b"⟩, false, false⟩⟩
        ).1.StatusCode = 400) ∧
    (∀ e, (Shorten { urls := [("AAAAAAAA", "http://example.com/a")] } countRand
        "http://example.com/b").1.2 = some e → e ≠ Error.ErrInvalidURL →
      (handleShorten { urls := [("AAAAAAAA", "http://example.com/a")] } countRand
        ⟨"POST", "/shorten", "application/json", ⟨some ⟨"http://example.com/b"⟩, false, false⟩⟩
        ).1.StatusCode = 500) ∧
    ((Shorten { urls := [("AAAAAAAA", "http://example.com/a")] } countRand
        "http://example.com/b").1.2 = none →
      (handleShorten { urls := [("AAAAAAAA", "http://example.com/a")] } countRand
        ⟨"POST", "/shorten", "application/json", ⟨some ⟨"http://example.com/b"⟩, false, false⟩⟩
        ).1 = Response.JSON
          { ShortURL := (Shorten { urls := [("AAAAAAAA", "http://example.com/a")] } countRand
              "http://example.com/b").1.1,
            OriginalURL := "http://example.com/b" } ∧
      (handleShorten { urls := [("AAAAAAAA", "http://example.com/a")] } countRand
        ⟨"POST", "/shorten", "application/json", ⟨some ⟨"http://example.com/b"⟩, false, false⟩⟩
        ).1.StatusCode = 200) ∧
    ((GetOriginal { urls := [("AAAAAAAA", "http://example.com/a")] }
        (String.mk "AAAAAAAA".data)).1.2 = some Error.ErrNotFound →
      (handleRoot { urls := [("AAAAAAAA", "http://example.com/a")] }
        ⟨"GET", "/AAAAAAAA", "", ⟨none, false, false⟩⟩).1 = Response.NotFound ∧
      (handleRoot { urls := [("AAAAAAAA", "http://example.com/a")] }
        ⟨"GET", "/AAAAAAAA", "", ⟨none, false, false⟩⟩).1.StatusCode = 404) ∧
    (∀ orig, (GetOriginal { urls := [("AAAAAAAA", "http://example.com/a")] }
        (String.mk "AAAAAAAA".data)).1 = (orig, none) →
      mapGet [("AAAAAAAA", "http://example.com/a")] (String.mk "AAAAAAAA".data) = some orig ∧
      (handleRoot { urls := [("AAAAAAAA", "http://example.com/a")] }
        ⟨"GET", "/AAAAAAAA", "", ⟨none, false, false⟩⟩).1 = Response.Redirect orig 302 ∧
      (handleRoot { urls := [("AAAAAAAA", "http://example.com/a")] }
        ⟨"GET", "/AAAAAAAA", "", ⟨none, false, false⟩⟩).1.StatusCode = 302) :=
  handlers_status_mapping { urls := [("AAAAAAAA", "http://example.com/a")] } countRand
    ⟨"POST", "/shorten", "application/json", ⟨some ⟨"http://example.com/b"⟩, false, false⟩⟩
    ⟨"GET", "/AAAAAAAA", "", ⟨none, false, false⟩⟩ ⟨"http://example.com/b"⟩ "AAAAAAAA".data
    rfl (Or.inr (by decide)) rfl rfl rfl (by decide) (by decide)

end Urlshortener
